import Mathlib

/-!
Verification of the typed value layer of `homie-controller` (`src/values.rs`).

Strings are embedded as `List Char`, Rust `Result` as `Except`, and a Rust
panic (assertion failure) as the `none` case of an `Option`-valued function.
All definitions mirror the Rust source; `Datatype` is the one type not in the
provided source tree and is modelled from the spec.
-/

/-- Modelled from the spec: the `Datatype` tag enumeration from
`crate::types` (not part of the provided source), "an externally defined
closed set {Integer, Float, Boolean, String, Enum, Color}", treated as an
opaque, equality-comparable token. -/
inductive Datatype
  | integer
  | float
  | boolean
  | string
  | enum
  | color
deriving DecidableEq

/-- `ValueError` from `values.rs` lines 8-21. Format strings and payload
text are embedded as `List Char`. -/
inductive ValueError
  | unknown
  | wrongDatatype (expected actual : Datatype)
  | wrongFormat (format : List Char)
  | parseFailed (value : List Char) (datatype : Datatype)
deriving DecidableEq

/-- Rust's `RangeInclusive` as used by the numeric `Format` associated types;
`stop` embeds the Rust field `end` (a Lean keyword). -/
structure RangeInclusive (α : Type) where
  start : α
  stop : α
deriving DecidableEq

/-- Rust `str::split(sep)` producing all fields, embedded on `List Char`:
splitting the empty string yields one empty field, consecutive separators
yield empty fields, order is preserved. -/
def splitOnChar (sep : Char) : List Char → List (List Char)
  | [] => [[]]
  | c :: cs =>
    if c = sep then [] :: splitOnChar sep cs
    else
      match splitOnChar sep cs with
      | [] => [[c]]
      | r :: rs => (c :: r) :: rs

/-- Rust `str::splitn(2, sep)`: split on the first occurrence of `sep` only. -/
def splitn2Char (sep : Char) : List Char → List (List Char)
  | [] => [[]]
  | c :: cs =>
    if c = sep then [[], cs]
    else
      match splitn2Char sep cs with
      | [] => [[c]]
      | r :: rs => (c :: r) :: rs

theorem splitOnChar_ne_nil (sep : Char) (l : List Char) :
    splitOnChar sep l ≠ [] := by
  cases l with
  | nil => simp [splitOnChar]
  | cons c cs =>
    simp only [splitOnChar]
    split
    · simp
    · split <;> simp

theorem splitOnChar_of_not_mem (sep : Char) (l : List Char) (h : sep ∉ l) :
    splitOnChar sep l = [l] := by
  induction l with
  | nil => rfl
  | cons c cs ih =>
    have hc : c ≠ sep := fun hc => h (hc ▸ List.mem_cons_self c cs)
    have hcs : sep ∉ cs := fun hm => h (List.mem_cons_of_mem c hm)
    simp only [splitOnChar, if_neg hc, ih hcs]

theorem splitOnChar_append (sep : Char) (a b : List Char) (ha : sep ∉ a) :
    splitOnChar sep (a ++ sep :: b) = a :: splitOnChar sep b := by
  induction a with
  | nil => simp [splitOnChar]
  | cons c cs ih =>
    have hc : c ≠ sep := fun hc => ha (hc ▸ List.mem_cons_self c cs)
    have hcs : sep ∉ cs := fun hm => ha (List.mem_cons_of_mem c hm)
    simp only [List.cons_append, splitOnChar, if_neg hc, List.append_eq, ih hcs]

theorem splitn2Char_of_not_mem (sep : Char) (l : List Char) (h : sep ∉ l) :
    splitn2Char sep l = [l] := by
  induction l with
  | nil => rfl
  | cons c cs ih =>
    have hc : c ≠ sep := fun hc => h (hc ▸ List.mem_cons_self c cs)
    have hcs : sep ∉ cs := fun hm => h (List.mem_cons_of_mem c hm)
    simp only [splitn2Char, if_neg hc, ih hcs]

theorem splitn2Char_append (sep : Char) (a b : List Char) (ha : sep ∉ a) :
    splitn2Char sep (a ++ sep :: b) = [a, b] := by
  induction a with
  | nil => simp [splitn2Char]
  | cons c cs ih =>
    have hc : c ≠ sep := fun hc => ha (hc ▸ List.mem_cons_self c cs)
    have hcs : sep ∉ cs := fun hm => ha (List.mem_cons_of_mem c hm)
    simp only [List.cons_append, splitn2Char, if_neg hc, List.append_eq, ih hcs]

theorem splitn2Char_ne_nil (sep : Char) (l : List Char) :
    splitn2Char sep l ≠ [] := by
  cases l with
  | nil => simp [splitn2Char]
  | cons c cs =>
    simp only [splitn2Char]
    split
    · simp
    · split <;> simp

/-- Inversion: a one-field result of `splitn2Char` is the whole input,
separator-free. -/
theorem splitn2Char_eq_single (sep : Char) (l a : List Char)
    (h : splitn2Char sep l = [a]) : l = a ∧ sep ∉ a := by
  induction l generalizing a with
  | nil =>
    simp only [splitn2Char] at h
    cases h
    exact ⟨rfl, by simp⟩
  | cons c cs ih =>
    simp only [splitn2Char] at h
    by_cases hc : c = sep
    · rw [if_pos hc] at h
      exact absurd h (by simp)
    · rw [if_neg hc] at h
      cases hr : splitn2Char sep cs with
      | nil => exact absurd hr (splitn2Char_ne_nil sep cs)
      | cons r rs =>
        rw [hr] at h
        cases h
        rcases ih r hr with ⟨rfl, hmem⟩
        refine ⟨rfl, ?_⟩
        intro hm
        rcases List.mem_cons.mp hm with rfl | hm2
        · exact hc rfl
        · exact hmem hm2

/-- Inversion: a two-field result of `splitn2Char` decomposes the input at
its first separator. -/
theorem splitn2Char_eq_pair (sep : Char) (l a b : List Char)
    (h : splitn2Char sep l = [a, b]) : l = a ++ sep :: b ∧ sep ∉ a := by
  induction l generalizing a b with
  | nil =>
    simp only [splitn2Char] at h
    exact absurd h (by simp)
  | cons c cs ih =>
    simp only [splitn2Char] at h
    by_cases hc : c = sep
    · rw [if_pos hc] at h
      cases h
      subst hc
      exact ⟨rfl, by simp⟩
    · rw [if_neg hc] at h
      cases hr : splitn2Char sep cs with
      | nil => exact absurd hr (splitn2Char_ne_nil sep cs)
      | cons r rs =>
        rw [hr] at h
        cases h
        rcases ih r b hr with ⟨rfl, hmem⟩
        refine ⟨rfl, ?_⟩
        intro hm
        rcases List.mem_cons.mp hm with rfl | hm2
        · exact hc rfl
        · exact hmem hm2

/-- `splitn2Char` yields one or two fields, never another arity. -/
theorem splitn2Char_length (sep : Char) (l : List Char) :
    (splitn2Char sep l).length = 1 ∨ (splitn2Char sep l).length = 2 := by
  induction l with
  | nil => left; rfl
  | cons c cs ih =>
    simp only [splitn2Char]
    split
    · right; rfl
    · cases hr : splitn2Char sep cs with
      | nil => left; rfl
      | cons r rs =>
        rw [hr] at ih
        simpa using ih

/-- Numeric value of one decimal digit character. -/
def digitVal (c : Char) : Nat := c.toNat - 48

/-- Value of a most-significant-first decimal digit string. -/
def digitsToNat (cs : List Char) : Nat :=
  cs.foldl (fun acc c => acc * 10 + digitVal c) 0

/-- The digit-run core of Rust's integer `from_str`: the input must be
nonempty and all ASCII digits; its value is returned exactly (callers apply
the type's overflow bound). -/
def parseNat (cs : List Char) : Option Nat :=
  if cs = [] then none
  else if cs.all Char.isDigit then some (digitsToNat cs) else none

/-- Rust `u8::from_str` / `u16::from_str`: optional leading `+`, then a digit
run; a value exceeding the type's native bound is a parse error, and a
leading `-` is rejected (it is not a digit). -/
def parseUnsigned (bound : Nat) (cs : List Char) : Option Nat :=
  match cs with
  | [] => none
  | c :: rest =>
    (parseNat (if c = '+' then rest else c :: rest)).bind fun n =>
      if n ≤ bound then some n else none

def parseU8 : List Char → Option Nat := parseUnsigned 255

def parseU16 : List Char → Option Nat := parseUnsigned 65535

/-- Rust `i64::from_str`: optional sign, digit run, two's-complement bounds
`[-2^63, 2^63 - 1]`; overflow is a parse error. -/
def parseI64 (cs : List Char) : Option Int :=
  match cs with
  | [] => none
  | c :: rest =>
    if c = '+' then
      (parseNat rest).bind fun n =>
        if n ≤ 2 ^ 63 - 1 then some (Int.ofNat n) else none
    else if c = '-' then
      (parseNat rest).bind fun n =>
        if n ≤ 2 ^ 63 then some (-(Int.ofNat n)) else none
    else
      (parseNat (c :: rest)).bind fun n =>
        if n ≤ 2 ^ 63 - 1 then some (Int.ofNat n) else none

/-- Decimal rendering of a `Nat`, most significant digit first, via
structural fuel (so that it evaluates by kernel reduction); `n + 1` fuel
always suffices since dividing by 10 shrinks the argument. -/
def natToCharsAux : Nat → Nat → List Char
  | 0, _ => []
  | fuel + 1, n =>
    if n < 10 then [Nat.digitChar n]
    else natToCharsAux fuel (n / 10) ++ [Nat.digitChar (n % 10)]

/-- Decimal rendering of a `Nat` (Rust `Display` for the unsigned
channels). -/
def natToChars (n : Nat) : List Char := natToCharsAux (n + 1) n

theorem natToCharsAux_fuel (n : Nat) : ∀ f1 f2, n < f1 → n < f2 →
    natToCharsAux f1 n = natToCharsAux f2 n := by
  induction n using Nat.strong_induction_on with
  | _ n ih =>
    intro f1 f2 h1 h2
    cases f1 with
    | zero => omega
    | succ g1 =>
      cases f2 with
      | zero => omega
      | succ g2 =>
        by_cases h : n < 10
        · simp only [natToCharsAux, if_pos h]
        · simp only [natToCharsAux, if_neg h]
          have hlt : n / 10 < n := by omega
          rw [ih (n / 10) hlt g1 g2 (by omega) (by omega)]

theorem natToChars_lt (n : Nat) (h : n < 10) :
    natToChars n = [Nat.digitChar n] := by
  simp only [natToChars, natToCharsAux, if_pos h]

theorem natToChars_ge (n : Nat) (h : 10 ≤ n) :
    natToChars n = natToChars (n / 10) ++ [Nat.digitChar (n % 10)] := by
  show natToCharsAux (n + 1) n = natToCharsAux (n / 10 + 1) (n / 10) ++ _
  rw [show natToCharsAux (n + 1) n =
      if n < 10 then [Nat.digitChar n]
      else natToCharsAux n (n / 10) ++ [Nat.digitChar (n % 10)] from rfl]
  rw [if_neg (by omega : ¬ n < 10)]
  rw [natToCharsAux_fuel (n / 10) n (n / 10 + 1) (by omega) (by omega)]

/-- Rust `Display` for `i64`: minus sign then decimal magnitude. -/
def intToChars (x : Int) : List Char :=
  if x < 0 then '-' :: natToChars x.natAbs else natToChars x.natAbs

theorem digitVal_digitChar : ∀ n, n < 10 → digitVal (Nat.digitChar n) = n := by
  decide

theorem digitChar_isDigit : ∀ n, n < 10 → (Nat.digitChar n).isDigit = true := by
  decide

theorem digitsToNat_concat (xs : List Char) (c : Char) :
    digitsToNat (xs ++ [c]) = digitsToNat xs * 10 + digitVal c := by
  simp [digitsToNat, List.foldl_append]

theorem natToChars_ne_nil (n : Nat) : natToChars n ≠ [] := by
  by_cases h : n < 10
  · rw [natToChars_lt n h]; simp
  · rw [natToChars_ge n (by omega)]; simp

theorem digitsToNat_natToChars (n : Nat) : digitsToNat (natToChars n) = n := by
  induction n using Nat.strong_induction_on with
  | _ n ih =>
    by_cases h : n < 10
    · rw [natToChars_lt n h]
      have := digitVal_digitChar n h
      simp [digitsToNat, this]
    · rw [natToChars_ge n (by omega), digitsToNat_concat,
        ih (n / 10) (Nat.div_lt_self (by omega) (by decide)),
        digitVal_digitChar (n % 10) (Nat.mod_lt n (by omega))]
      omega

theorem isDigit_of_mem_natToChars (n : Nat) :
    ∀ c ∈ natToChars n, c.isDigit = true := by
  induction n using Nat.strong_induction_on with
  | _ n ih =>
    intro c hc
    by_cases h : n < 10
    · rw [natToChars_lt n h] at hc
      rcases List.mem_singleton.mp hc with rfl
      exact digitChar_isDigit n h
    · rw [natToChars_ge n (by omega)] at hc
      rcases List.mem_append.mp hc with h1 | h1
      · exact ih (n / 10) (Nat.div_lt_self (by omega) (by decide)) c h1
      · rcases List.mem_singleton.mp h1 with rfl
        exact digitChar_isDigit (n % 10) (Nat.mod_lt n (by omega))

theorem not_mem_natToChars {c : Char} (hc : c.isDigit = false) (n : Nat) :
    c ∉ natToChars n :=
  fun hm => by rw [isDigit_of_mem_natToChars n c hm] at hc; cases hc

theorem parseNat_natToChars (n : Nat) : parseNat (natToChars n) = some n := by
  rw [parseNat, if_neg (natToChars_ne_nil n),
    if_pos (List.all_eq_true.mpr (isDigit_of_mem_natToChars n)),
    digitsToNat_natToChars]

theorem parseNat_mem_digit {cs : List Char} {n : Nat} (h : parseNat cs = some n) :
    ∀ c ∈ cs, c.isDigit = true := by
  by_cases h1 : cs = []
  · rw [parseNat, if_pos h1] at h; cases h
  · rw [parseNat, if_neg h1] at h
    by_cases h2 : cs.all Char.isDigit = true
    · exact List.all_eq_true.mp h2
    · rw [if_neg h2] at h; cases h

theorem parseUnsigned_natToChars (bound n : Nat) (h : n ≤ bound) :
    parseUnsigned bound (natToChars n) = some n := by
  rcases hne : natToChars n with _ | ⟨c, rest⟩
  · exact absurd hne (natToChars_ne_nil n)
  · have hd : c.isDigit = true :=
      isDigit_of_mem_natToChars n c (by rw [hne]; exact List.mem_cons_self c rest)
    have hplus : ¬(c = '+') := by
      intro h2; rw [h2] at hd; exact absurd hd (by decide)
    have hp : parseNat (c :: rest) = some n := by
      rw [← hne, parseNat_natToChars n]
    show (parseNat (if c = '+' then rest else c :: rest)).bind
        (fun m => if m ≤ bound then some m else none) = some n
    rw [if_neg hplus, hp]
    simp [h]

theorem parseI64_cons (c : Char) (rest : List Char) :
    parseI64 (c :: rest) =
      if c = '+' then
        (parseNat rest).bind fun n =>
          if n ≤ 2 ^ 63 - 1 then some (Int.ofNat n) else none
      else if c = '-' then
        (parseNat rest).bind fun n =>
          if n ≤ 2 ^ 63 then some (-(Int.ofNat n)) else none
      else
        (parseNat (c :: rest)).bind fun n =>
          if n ≤ 2 ^ 63 - 1 then some (Int.ofNat n) else none := rfl

theorem parseI64_natToChars_nonneg (n : Nat) (h : n ≤ 2 ^ 63 - 1) :
    parseI64 (natToChars n) = some (Int.ofNat n) := by
  rcases hne : natToChars n with _ | ⟨c, rest⟩
  · exact absurd hne (natToChars_ne_nil n)
  · have hd : c.isDigit = true :=
      isDigit_of_mem_natToChars n c (by rw [hne]; exact List.mem_cons_self c rest)
    have hplus : ¬(c = '+') := by
      intro h2; rw [h2] at hd; exact absurd hd (by decide)
    have hminus : ¬(c = '-') := by
      intro h2; rw [h2] at hd; exact absurd hd (by decide)
    have hp : parseNat (c :: rest) = some n := by
      rw [← hne, parseNat_natToChars n]
    rw [parseI64_cons, if_neg hplus, if_neg hminus, hp]
    simp only [Option.some_bind]
    rw [if_pos h]

theorem parseI64_intToChars (x : Int) (h1 : -(2 ^ 63) ≤ x) (h2 : x ≤ 2 ^ 63 - 1) :
    parseI64 (intToChars x) = some x := by
  rw [intToChars]
  by_cases hx : x < 0
  · rw [if_pos hx, parseI64_cons, if_neg (by decide), if_pos rfl,
      parseNat_natToChars]
    have hb : x.natAbs ≤ 2 ^ 63 := by omega
    simp only [Option.some_bind, if_pos hb, Option.some.injEq, Int.ofNat_eq_coe]
    omega
  · rw [if_neg hx]
    have hb : x.natAbs ≤ 2 ^ 63 - 1 := by omega
    rw [parseI64_natToChars_nonneg x.natAbs hb]
    simp only [Option.some.injEq, Int.ofNat_eq_coe]
    omega

theorem parseNat_not_mem_colon {cs : List Char} {n : Nat}
    (h : parseNat cs = some n) : ':' ∉ cs := fun hm =>
  absurd (parseNat_mem_digit h ':' hm) (by decide)

theorem parseI64_no_colon {a : List Char} {x : Int} (h : parseI64 a = some x) :
    ':' ∉ a := by
  cases a with
  | nil => simp
  | cons c rest =>
    rw [parseI64_cons] at h
    by_cases h1 : c = '+'
    · rw [if_pos h1] at h
      rcases Option.bind_eq_some.mp h with ⟨n, hn, _⟩
      intro hm
      rcases List.mem_cons.mp hm with hm1 | hm2
      · rw [h1] at hm1; exact absurd hm1 (by decide)
      · exact parseNat_not_mem_colon hn hm2
    · rw [if_neg h1] at h
      by_cases h2 : c = '-'
      · rw [if_pos h2] at h
        rcases Option.bind_eq_some.mp h with ⟨n, hn, _⟩
        intro hm
        rcases List.mem_cons.mp hm with hm1 | hm2
        · rw [h2] at hm1; exact absurd hm1 (by decide)
        · exact parseNat_not_mem_colon hn hm2
      · rw [if_neg h2] at h
        rcases Option.bind_eq_some.mp h with ⟨n, hn, _⟩
        exact parseNat_not_mem_colon hn

/-- Default `Value::valid_for_format` (`values.rs` lines 56-58): succeeds
unconditionally. -/
def validForFormatDefault (_format : List Char) : Except ValueError Unit :=
  Except.ok ()

/-- The format half of the default `valid_for`: a present format string is
checked by the type's `valid_for_format`; an absent one succeeds. -/
def checkFormat (validForFormat : List Char → Except ValueError Unit) :
    Option (List Char) → Except ValueError Unit
  | some f => validForFormat f
  | none => Except.ok ()

/-- Default `Value::valid_for` (`values.rs` lines 36-51), parameterized over
`Self::datatype()` and `Self::valid_for_format` (no impl in the source
overrides it): a declared datatype differing from the type's own is
`WrongDatatype{expected, actual}`; otherwise any declared format string is
delegated to `valid_for_format`; absent metadata succeeds. -/
def validForDefault (selfDatatype : Datatype)
    (validForFormat : List Char → Except ValueError Unit)
    (datatype : Option Datatype) (format : Option (List Char)) :
    Except ValueError Unit :=
  match datatype with
  | some actual =>
    if actual ≠ selfDatatype then
      Except.error (ValueError.wrongDatatype selfDatatype actual)
    else
      checkFormat validForFormat format
  | none => checkFormat validForFormat format

/-- `parse_format` shared verbatim by `impl Value for i64` (`values.rs` lines
70-83) and `impl Value for f64` (lines 93-106), parameterized over the
numeric literal parser `p` of the target type (`parseI64` for `i64`; `f64`'s
float literal grammar stays an abstract parameter since floating point is
outside the embedding): `splitn(2, ':')`, parse each part, succeed exactly
when the result is two parsed literals. -/
def parseFormatNum {α : Type} (p : List Char → Option α) (format : List Char) :
    Except ValueError (RangeInclusive α) :=
  match (splitn2Char ':' format).map p with
  | [some s, some e] => Except.ok ⟨s, e⟩
  | _ => Except.error (ValueError.wrongFormat format)

/-- `<i64 as Value>::parse_format`. -/
def i64ParseFormat : List Char → Except ValueError (RangeInclusive Int) :=
  parseFormatNum parseI64

theorem parseFormatNum_ok {α : Type} (p : List Char → Option α)
    (a b : List Char) (x y : α) (hx : p a = some x) (hy : p b = some y)
    (ha : ':' ∉ a) : parseFormatNum p (a ++ ':' :: b) = Except.ok ⟨x, y⟩ := by
  rw [parseFormatNum, splitn2Char_append ':' a b ha]
  simp only [List.map_cons, List.map_nil, hx, hy]

theorem parseFormatNum_ok_inv {α : Type} (p : List Char → Option α)
    (format : List Char) (r : RangeInclusive α)
    (h : parseFormatNum p format = Except.ok r) :
    ∃ a b, format = a ++ ':' :: b ∧ ':' ∉ a ∧
      p a = some r.start ∧ p b = some r.stop := by
  rw [parseFormatNum] at h
  rcases splitn2Char_length ':' format with hl | hl
  · rcases List.length_eq_one.mp hl with ⟨a, ha⟩
    rw [ha] at h
    simp only [List.map_cons, List.map_nil] at h
    cases hpa : p a <;> rw [hpa] at h <;> cases h
  · rcases List.length_eq_two.mp hl with ⟨a, b, hab⟩
    rw [hab] at h
    simp only [List.map_cons, List.map_nil] at h
    cases hpa : p a <;> rw [hpa] at h
    · cases h
    · cases hpb : p b <;> rw [hpb] at h
      · cases h
      · cases h
        rcases splitn2Char_eq_pair ':' format a b hab with ⟨hf, hna⟩
        exact ⟨a, b, hf, hna, hpa, hpb⟩

theorem parseFormatNum_cases {α : Type} (p : List Char → Option α)
    (format : List Char) :
    (∃ r, parseFormatNum p format = Except.ok r) ∨
      parseFormatNum p format = Except.error (ValueError.wrongFormat format) := by
  rw [parseFormatNum]
  rcases splitn2Char_length ':' format with hl | hl
  · rcases List.length_eq_one.mp hl with ⟨a, ha⟩
    rw [ha]
    simp only [List.map_cons, List.map_nil]
    cases p a
    · right; rfl
    · right; rfl
  · rcases List.length_eq_two.mp hl with ⟨a, b, hab⟩
    rw [hab]
    simp only [List.map_cons, List.map_nil]
    cases p a
    · right; rfl
    · cases p b
      · right; rfl
      · left; exact ⟨_, rfl⟩

theorem parseFormatNum_no_colon {α : Type} (p : List Char → Option α)
    (format : List Char) (h : ':' ∉ format) :
    parseFormatNum p format = Except.error (ValueError.wrongFormat format) := by
  rw [parseFormatNum, splitn2Char_of_not_mem ':' format h]
  simp only [List.map_cons, List.map_nil]
  cases p format
  · rfl
  · rfl

/-- `impl Value for i64` (`values.rs` lines 63-84): `datatype` is `Integer`;
`valid_for_format` is NOT overridden there, so the trait default applies. -/
def i64ValidForFormat : List Char → Except ValueError Unit :=
  validForFormatDefault

/-- `valid_for` for `i64`: the trait default at `Datatype::Integer`. -/
def i64ValidFor : Option Datatype → Option (List Char) → Except ValueError Unit :=
  validForDefault Datatype.integer i64ValidForFormat

/-- `impl Value for f64` (`values.rs` lines 86-107): `datatype` is `Float`;
`valid_for_format` is NOT overridden there either. -/
def f64ValidForFormat : List Char → Except ValueError Unit :=
  validForFormatDefault

def f64ValidFor : Option Datatype → Option (List Char) → Except ValueError Unit :=
  validForDefault Datatype.float f64ValidForFormat

/-- `impl Value for bool` (`values.rs` lines 109-119): default
`valid_for_format`. -/
def boolValidForFormat : List Char → Except ValueError Unit :=
  validForFormatDefault

/-- `impl Value for String` (`values.rs` lines 122-132): default
`valid_for_format`. -/
def stringValidForFormat : List Char → Except ValueError Unit :=
  validForFormatDefault

/-- `ColorFormat` (`values.rs` lines 136-142). -/
inductive ColorFormat
  | RGB
  | HSV
deriving DecidableEq

/-- `ColorFormat::as_str` (`values.rs` lines 144-151). -/
def ColorFormat.asStr : ColorFormat → List Char
  | .RGB => ['r', 'g', 'b']
  | .HSV => ['h', 's', 'v']

/-- `impl FromStr for ColorFormat` (`values.rs` lines 153-165): exact
case-sensitive match on the two tags. -/
def colorFormatFromStr (s : List Char) : Except ValueError ColorFormat :=
  if s = ['r', 'g', 'b'] then Except.ok ColorFormat.RGB
  else if s = ['h', 's', 'v'] then Except.ok ColorFormat.HSV
  else Except.error (ValueError.wrongFormat s)

/-- `valid_for_format` of the blanket `impl<T: Color> Value for T`
(`values.rs` lines 184-192): succeed iff the format string equals
`Self::format().as_str()`; `selfFormat` embeds `Self::format()` (RGB for
`ColorRGB`, HSV for `ColorHSV`). -/
def colorValidForFormat (selfFormat : ColorFormat) (format : List Char) :
    Except ValueError Unit :=
  if format = selfFormat.asStr then Except.ok ()
  else Except.error (ValueError.wrongFormat format)

/-- `parse_format` of the blanket color impl (`values.rs` lines 194-196). -/
def colorParseFormat : List Char → Except ValueError ColorFormat :=
  colorFormatFromStr

/-- `valid_for` of the blanket color impl: trait default at
`Datatype::Color`. -/
def colorValidFor (selfFormat : ColorFormat) :
    Option Datatype → Option (List Char) → Except ValueError Unit :=
  validForDefault Datatype.color (colorValidForFormat selfFormat)

/-- `ParseColorError` (`values.rs` lines 200-202): opaque, records nothing. -/
structure ParseColorError where
deriving DecidableEq

/-- `ColorRGB` (`values.rs` lines 211-219): three `u8` channels, embedded as
`Nat`; the `u8` bound 255 is enforced by the parser. -/
structure ColorRGB where
  r : Nat
  g : Nat
  b : Nat
deriving DecidableEq

/-- `ColorRGB::new` (`values.rs` lines 221-226): no assertion. -/
def ColorRGB.new (r g b : Nat) : ColorRGB := ⟨r, g, b⟩

/-- `Display for ColorRGB` (`values.rs` lines 228-232): `"{r},{g},{b}"`. -/
def colorRGBToChars (c : ColorRGB) : List Char :=
  natToChars c.r ++ ',' :: (natToChars c.g ++ ',' :: natToChars c.b)

/-- `FromStr for ColorRGB` (`values.rs` lines 234-249): split on `,`, require
exactly three fields, parse each as `u8` with early return on failure. -/
def colorRGBFromStr (str : List Char) : Except ParseColorError ColorRGB :=
  match splitOnChar ',' str with
  | [r, g, b] =>
    match parseU8 r, parseU8 g, parseU8 b with
    | some rv, some gv, some bv => Except.ok ⟨rv, gv, bv⟩
    | _, _, _ => Except.error ⟨⟩
  | _ => Except.error ⟨⟩

/-- `ColorHSV` (`values.rs` lines 258-266): `u16` hue, `u8` saturation and
value, embedded as `Nat`. -/
structure ColorHSV where
  h : Nat
  s : Nat
  v : Nat
deriving DecidableEq

/-- `ColorHSV::new` (`values.rs` lines 268-276); the three `assert!`s are
modelled by `none` (panic). -/
def ColorHSV.new (h s v : Nat) : Option ColorHSV :=
  if h ≤ 360 then
    if s ≤ 100 then
      if v ≤ 100 then some ⟨h, s, v⟩ else none
    else none
  else none

/-- `Display for ColorHSV` (`values.rs` lines 278-282): `"{h},{s},{v}"`. -/
def colorHSVToChars (c : ColorHSV) : List Char :=
  natToChars c.h ++ ',' :: (natToChars c.s ++ ',' :: natToChars c.v)

/-- `FromStr for ColorHSV` (`values.rs` lines 284-299): split on `,`, three
fields, `u16`/`u8`/`u8` parses, then the range check
`h <= 360 && s <= 100 && v <= 100`; the struct is built directly (a struct
literal), NOT via `ColorHSV::new`, so no panic is reachable. -/
def colorHSVFromStr (str : List Char) : Except ParseColorError ColorHSV :=
  match splitOnChar ',' str with
  | [h, s, v] =>
    match parseU16 h, parseU8 s, parseU8 v with
    | some hv, some sv, some vv =>
      if hv ≤ 360 ∧ sv ≤ 100 ∧ vv ≤ 100 then Except.ok ⟨hv, sv, vv⟩
      else Except.error ⟨⟩
    | _, _, _ => Except.error ⟨⟩
  | _ => Except.error ⟨⟩

/-- `EnumValue` (`values.rs` lines 310-311): a string wrapper; the tuple
field `.0` is embedded as `val`. -/
structure EnumValue where
  val : List Char
deriving DecidableEq

/-- `EnumValue::new` (`values.rs` lines 313-318); `assert!(!s.is_empty())`
is modelled by `none` (panic). -/
def EnumValue.new (s : List Char) : Option EnumValue :=
  if s = [] then none else some ⟨s⟩

/-- `ParseEnumError` (`values.rs` lines 321-323). -/
structure ParseEnumError where
deriving DecidableEq

/-- `FromStr for EnumValue` (`values.rs` lines 325-335): empty input is a
recoverable error; otherwise the value is built by `EnumValue::new`, whose
assertion keeps the outer `Option` (`none` would be a panic). -/
def enumValueFromStr (s : List Char) :
    Option (Except ParseEnumError EnumValue) :=
  if s = [] then some (Except.error ⟨⟩)
  else (EnumValue.new s).map Except.ok

/-- `ToString for EnumValue` (`values.rs` lines 337-341): the wrapped
string. -/
def enumToChars (v : EnumValue) : List Char := v.val

/-- `<EnumValue as Value>::parse_format` (`values.rs` lines 343-359): an
empty format string is `WrongFormat`; otherwise split on commas (no
trimming, no deduplication). -/
def enumParseFormat (format : List Char) : Except ValueError (List (List Char)) :=
  if format = [] then Except.error (ValueError.wrongFormat [])
  else Except.ok (splitOnChar ',' format)

/-- Rust `bool::from_str`: exactly the two literal truth tokens. -/
def boolFromStr (s : List Char) : Option Bool :=
  if s = ['t', 'r', 'u', 'e'] then some true
  else if s = ['f', 'a', 'l', 's', 'e'] then some false
  else none

/-- Rust `Display for bool`. -/
def boolToChars : Bool → List Char
  | true => ['t', 'r', 'u', 'e']
  | false => ['f', 'a', 'l', 's', 'e']

/-- Rust `String::from_str` is infallible and the identity on the text;
`ToString` is the identity as well. -/
def stringFromStr (s : List Char) : List Char := s

/-- Joining fields with a separator: the left inverse used to state that
comma-splitting preserves every field. -/
def joinWithChar (sep : Char) : List (List Char) → List Char
  | [] => []
  | [p] => p
  | p :: ps => p ++ sep :: joinWithChar sep ps

/-- C1: every `Value` impl uses the default `valid_for` (none overrides it):
a declared datatype differing from the type's own fails with
`WrongDatatype{expected: own, actual: declared}`; otherwise a declared
format string is delegated to `valid_for_format`; absent metadata succeeds.
In particular, for `i64`, `valid_for(Some(Float), None)` fails with
`WrongDatatype{Integer, Float}` and `valid_for(None, Some("0:10"))`
succeeds. -/
theorem C1_valid_for_default_algorithm :
    (∀ (selfDt : Datatype) (vff : List Char → Except ValueError Unit)
        (actual : Datatype) (format : Option (List Char)), actual ≠ selfDt →
      validForDefault selfDt vff (some actual) format =
        Except.error (ValueError.wrongDatatype selfDt actual)) ∧
    (∀ (selfDt : Datatype) (vff : List Char → Except ValueError Unit)
        (datatype : Option Datatype) (f : List Char),
      datatype = none ∨ datatype = some selfDt →
      validForDefault selfDt vff datatype (some f) = vff f) ∧
    (∀ (selfDt : Datatype) (vff : List Char → Except ValueError Unit)
        (datatype : Option Datatype),
      datatype = none ∨ datatype = some selfDt →
      validForDefault selfDt vff datatype none = Except.ok ()) ∧
    i64ValidFor (some Datatype.float) none =
      Except.error (ValueError.wrongDatatype Datatype.integer Datatype.float) ∧
    i64ValidFor none (some ['0', ':', '1', '0']) = Except.ok () := by
  refine ⟨?_, ?_, ?_, rfl, rfl⟩
  · intro selfDt vff actual format hne
    simp only [validForDefault]
    rw [if_pos hne]
  · intro selfDt vff datatype f hdt
    rcases hdt with rfl | rfl
    · rfl
    · simp only [validForDefault]
      rw [if_neg (fun hne => hne rfl)]
      rfl
  · intro selfDt vff datatype hdt
    rcases hdt with rfl | rfl
    · rfl
    · simp only [validForDefault]
      rw [if_neg (fun hne => hne rfl)]
      rfl

theorem C1_valid_for_default_algorithm_witness :
    validForDefault Datatype.boolean validForFormatDefault
        (some Datatype.color) none =
      Except.error (ValueError.wrongDatatype Datatype.boolean Datatype.color) ∧
    validForDefault Datatype.boolean validForFormatDefault
        (some Datatype.boolean) (some ['x']) = validForFormatDefault ['x'] ∧
    validForDefault Datatype.boolean validForFormatDefault none none =
      Except.ok () :=
  ⟨C1_valid_for_default_algorithm.1 Datatype.boolean validForFormatDefault
      Datatype.color none (by decide),
   C1_valid_for_default_algorithm.2.1 Datatype.boolean validForFormatDefault
      (some Datatype.boolean) ['x'] (Or.inr rfl),
   C1_valid_for_default_algorithm.2.2.1 Datatype.boolean validForFormatDefault
      none (Or.inl rfl)⟩

/-- C2: numeric `parse_format` (`i64` concretely; `f64` through the shared
`parseFormatNum` body over any float-literal parser, i.e. any token parser
whose accepted literals contain no colon) succeeds exactly on
`"<start>:<end>"` with both sides valid literals, yielding the inclusive
range `[start, end]` with no `start ≤ end` check; every other format string
(missing colon, non-numeric side, extra colons) fails with `WrongFormat`
carrying the offending format string. -/
theorem C2_numeric_parse_format :
    (∀ (a b : List Char) (x y : Int), parseI64 a = some x →
      parseI64 b = some y →
      i64ParseFormat (a ++ ':' :: b) = Except.ok ⟨x, y⟩) ∧
    (∀ (format : List Char) (r : RangeInclusive Int),
      i64ParseFormat format = Except.ok r →
      ∃ a b, format = a ++ ':' :: b ∧ parseI64 a = some r.start ∧
        parseI64 b = some r.stop) ∧
    (∀ format : List Char, (∃ r, i64ParseFormat format = Except.ok r) ∨
      i64ParseFormat format = Except.error (ValueError.wrongFormat format)) ∧
    (∀ (F : Type) (pf : List Char → Option F),
      (∀ a x, pf a = some x → ':' ∉ a) →
      (∀ (a b : List Char) (x y : F), pf a = some x → pf b = some y →
        parseFormatNum pf (a ++ ':' :: b) = Except.ok ⟨x, y⟩) ∧
      (∀ format r, parseFormatNum pf format = Except.ok r →
        ∃ a b, format = a ++ ':' :: b ∧ pf a = some r.start ∧
          pf b = some r.stop) ∧
      (∀ format, (∃ r, parseFormatNum pf format = Except.ok r) ∨
        parseFormatNum pf format =
          Except.error (ValueError.wrongFormat format))) := by
  refine ⟨?_, ?_, ?_, ?_⟩
  · intro a b x y hx hy
    exact parseFormatNum_ok parseI64 a b x y hx hy (parseI64_no_colon hx)
  · intro format r h
    rcases parseFormatNum_ok_inv parseI64 format r h with ⟨a, b, hf, _, ha, hb⟩
    exact ⟨a, b, hf, ha, hb⟩
  · exact parseFormatNum_cases parseI64
  · intro F pf hpf
    refine ⟨?_, ?_, parseFormatNum_cases pf⟩
    · intro a b x y hx hy
      exact parseFormatNum_ok pf a b x y hx hy (hpf a x hx)
    · intro format r h
      rcases parseFormatNum_ok_inv pf format r h with ⟨a, b, hf, _, ha, hb⟩
      exact ⟨a, b, hf, ha, hb⟩

theorem C2_numeric_parse_format_witness :
    i64ParseFormat ['5', ':', '3'] = Except.ok ⟨5, 3⟩ :=
  C2_numeric_parse_format.1 ['5'] ['3'] 5 3 (by decide) (by decide)

/-- C3 counterexample: the claim says `i64`'s (and `f64`'s)
`valid_for_format` fails on some format string, but neither impl overrides
the trait default, which succeeds on every input — e.g. on `"0"`, which
their `parse_format` rejects. -/
theorem C3_counterexample :
    (¬ ∃ format, i64ValidForFormat format ≠ Except.ok ()) ∧
    (¬ ∃ format, f64ValidForFormat format ≠ Except.ok ()) ∧
    i64ValidForFormat ['0'] = Except.ok () ∧
    i64ParseFormat ['0'] = Except.error (ValueError.wrongFormat ['0']) := by
  refine ⟨fun ⟨f, hf⟩ => hf rfl, fun ⟨f, hf⟩ => hf rfl, rfl, ?_⟩
  exact parseFormatNum_no_colon parseI64 ['0'] (by decide)

/-- C3 amended: `valid_for_format` succeeds unconditionally for boolean and
string AND for integer and float (none of the four overrides the default);
only the color types override it, and for each of them some format string is
rejected with `WrongFormat`. -/
theorem C3_amended_valid_for_format :
    (∀ f, boolValidForFormat f = Except.ok ()) ∧
    (∀ f, stringValidForFormat f = Except.ok ()) ∧
    (∀ f, i64ValidForFormat f = Except.ok ()) ∧
    (∀ f, f64ValidForFormat f = Except.ok ()) ∧
    colorValidForFormat ColorFormat.RGB ['x'] =
      Except.error (ValueError.wrongFormat ['x']) ∧
    colorValidForFormat ColorFormat.HSV ['x'] =
      Except.error (ValueError.wrongFormat ['x']) :=
  ⟨fun _ => rfl, fun _ => rfl, fun _ => rfl, fun _ => rfl, rfl, rfl⟩

theorem colorHSVFromStr_ok (input th ts tv : List Char) (hv sv vv : Nat)
    (hsplit : splitOnChar ',' input = [th, ts, tv])
    (h1 : parseU16 th = some hv) (h2 : parseU8 ts = some sv)
    (h3 : parseU8 tv = some vv) (hb : hv ≤ 360 ∧ sv ≤ 100 ∧ vv ≤ 100) :
    colorHSVFromStr input = Except.ok ⟨hv, sv, vv⟩ := by
  simp only [colorHSVFromStr, hsplit, h1, h2, h3]
  rw [if_pos hb]

theorem colorHSVFromStr_out_of_range (input th ts tv : List Char)
    (hv sv vv : Nat) (hsplit : splitOnChar ',' input = [th, ts, tv])
    (h1 : parseU16 th = some hv) (h2 : parseU8 ts = some sv)
    (h3 : parseU8 tv = some vv) (hb : ¬(hv ≤ 360 ∧ sv ≤ 100 ∧ vv ≤ 100)) :
    colorHSVFromStr input = Except.error ⟨⟩ := by
  simp only [colorHSVFromStr, hsplit, h1, h2, h3]
  rw [if_neg hb]

theorem colorHSVFromStr_ok_inv (input : List Char) (c : ColorHSV)
    (h : colorHSVFromStr input = Except.ok c) :
    ∃ th ts tv, splitOnChar ',' input = [th, ts, tv] ∧
      parseU16 th = some c.h ∧ parseU8 ts = some c.s ∧
      parseU8 tv = some c.v ∧ c.h ≤ 360 ∧ c.s ≤ 100 ∧ c.v ≤ 100 := by
  simp only [colorHSVFromStr] at h
  rcases hsp : splitOnChar ',' input with _ | ⟨t1, _ | ⟨t2, _ | ⟨t3, _ | ⟨t4, rest⟩⟩⟩⟩ <;>
    rw [hsp] at h
  · exact Except.noConfusion h
  · exact Except.noConfusion h
  · exact Except.noConfusion h
  · replace h : (match parseU16 t1, parseU8 t2, parseU8 t3 with
        | some hv, some sv, some vv =>
          if hv ≤ 360 ∧ sv ≤ 100 ∧ vv ≤ 100 then
            Except.ok (⟨hv, sv, vv⟩ : ColorHSV)
          else Except.error ParseColorError.mk
        | _, _, _ => Except.error ParseColorError.mk) = Except.ok c := h
    cases hp1 : parseU16 t1 with
    | none => rw [hp1] at h; exact Except.noConfusion h
    | some hv =>
      rw [hp1] at h
      cases hp2 : parseU8 t2 with
      | none => rw [hp2] at h; exact Except.noConfusion h
      | some sv =>
        rw [hp2] at h
        cases hp3 : parseU8 t3 with
        | none => rw [hp3] at h; exact Except.noConfusion h
        | some vv =>
          rw [hp3] at h
          replace h : (if hv ≤ 360 ∧ sv ≤ 100 ∧ vv ≤ 100 then
              Except.ok (⟨hv, sv, vv⟩ : ColorHSV)
            else Except.error ParseColorError.mk) = Except.ok c := h
          by_cases hb : hv ≤ 360 ∧ sv ≤ 100 ∧ vv ≤ 100
          · rw [if_pos hb] at h
            cases h
            exact ⟨t1, t2, t3, rfl, hp1, hp2, hp3, hb⟩
          · rw [if_neg hb] at h
            exact Except.noConfusion h
  · exact Except.noConfusion h

theorem colorRGBFromStr_ok (input tr tg tb : List Char) (rv gv bv : Nat)
    (hsplit : splitOnChar ',' input = [tr, tg, tb])
    (h1 : parseU8 tr = some rv) (h2 : parseU8 tg = some gv)
    (h3 : parseU8 tb = some bv) :
    colorRGBFromStr input = Except.ok ⟨rv, gv, bv⟩ := by
  simp only [colorRGBFromStr, hsplit, h1, h2, h3]

theorem colorRGBFromStr_ok_inv (input : List Char) (c : ColorRGB)
    (h : colorRGBFromStr input = Except.ok c) :
    ∃ tr tg tb, splitOnChar ',' input = [tr, tg, tb] ∧
      parseU8 tr = some c.r ∧ parseU8 tg = some c.g ∧
      parseU8 tb = some c.b := by
  simp only [colorRGBFromStr] at h
  rcases hsp : splitOnChar ',' input with _ | ⟨t1, _ | ⟨t2, _ | ⟨t3, _ | ⟨t4, rest⟩⟩⟩⟩ <;>
    rw [hsp] at h
  · exact Except.noConfusion h
  · exact Except.noConfusion h
  · exact Except.noConfusion h
  · replace h : (match parseU8 t1, parseU8 t2, parseU8 t3 with
        | some rv, some gv, some bv => Except.ok (⟨rv, gv, bv⟩ : ColorRGB)
        | _, _, _ => Except.error ParseColorError.mk) = Except.ok c := h
    cases hp1 : parseU8 t1 with
    | none => rw [hp1] at h; exact Except.noConfusion h
    | some rv =>
      rw [hp1] at h
      cases hp2 : parseU8 t2 with
      | none => rw [hp2] at h; exact Except.noConfusion h
      | some gv =>
        rw [hp2] at h
        cases hp3 : parseU8 t3 with
        | none => rw [hp3] at h; exact Except.noConfusion h
        | some bv =>
          rw [hp3] at h
          replace h : Except.ok (⟨rv, gv, bv⟩ : ColorRGB) = Except.ok c := h
          cases h
          exact ⟨t1, t2, t3, rfl, hp1, hp2, hp3⟩
  · exact Except.noConfusion h

theorem splitOnChar_triple (sep : Char) (a b c : List Char)
    (ha : sep ∉ a) (hb : sep ∉ b) (hc : sep ∉ c) :
    splitOnChar sep (a ++ sep :: (b ++ sep :: c)) = [a, b, c] := by
  rw [splitOnChar_append sep a _ ha, splitOnChar_append sep b c hb,
    splitOnChar_of_not_mem sep c hc]

/-- C4: HSV parsing succeeds exactly on `"h,s,v"`: three comma-separated
fields, `h` a `u16` literal, `s`,`v` `u8` literals, and additionally
`h ≤ 360 ∧ s ≤ 100 ∧ v ≤ 100`; every in-bounds triple parses to exactly
those fields, and a bound violation (e.g. h = 400) yields the same opaque
`ParseColorError` as a malformed or wrong-arity input. -/
theorem C4_hsv_parse :
    (∀ hn sn vn : Nat, hn ≤ 360 → sn ≤ 100 → vn ≤ 100 →
      colorHSVFromStr
          (natToChars hn ++ ',' :: (natToChars sn ++ ',' :: natToChars vn)) =
        Except.ok ⟨hn, sn, vn⟩) ∧
    (∀ input c, colorHSVFromStr input = Except.ok c →
      ∃ th ts tv, splitOnChar ',' input = [th, ts, tv] ∧
        parseU16 th = some c.h ∧ parseU8 ts = some c.s ∧
        parseU8 tv = some c.v ∧ c.h ≤ 360 ∧ c.s ≤ 100 ∧ c.v ≤ 100) ∧
    (∀ input th ts tv hv sv vv, splitOnChar ',' input = [th, ts, tv] →
      parseU16 th = some hv → parseU8 ts = some sv → parseU8 tv = some vv →
      ¬(hv ≤ 360 ∧ sv ≤ 100 ∧ vv ≤ 100) →
      colorHSVFromStr input = Except.error ParseColorError.mk) ∧
    (∀ input, (¬ ∃ c, colorHSVFromStr input = Except.ok c) →
      colorHSVFromStr input = Except.error ParseColorError.mk) ∧
    colorHSVFromStr ['4', '0', '0', ',', '0', ',', '0'] =
      Except.error ParseColorError.mk := by
  have hcomma : ∀ n : Nat, ',' ∉ natToChars n := not_mem_natToChars (by decide)
  refine ⟨?_, colorHSVFromStr_ok_inv, ?_, ?_, rfl⟩
  · intro hn sn vn hh hs hv
    exact colorHSVFromStr_ok _ (natToChars hn) (natToChars sn) (natToChars vn)
      hn sn vn
      (splitOnChar_triple ',' _ _ _ (hcomma hn) (hcomma sn) (hcomma vn))
      (parseUnsigned_natToChars 65535 hn (by omega))
      (parseUnsigned_natToChars 255 sn (by omega))
      (parseUnsigned_natToChars 255 vn (by omega))
      ⟨hh, hs, hv⟩
  · intro input th ts tv hv sv vv hsp h1 h2 h3 hb
    exact colorHSVFromStr_out_of_range input th ts tv hv sv vv hsp h1 h2 h3 hb
  · intro input hnc
    cases hc : colorHSVFromStr input with
    | ok c => exact absurd ⟨c, hc⟩ hnc
    | error e => cases e; rfl

theorem C4_hsv_parse_witness :
    colorHSVFromStr
        (natToChars 360 ++ ',' :: (natToChars 100 ++ ',' :: natToChars 0)) =
      Except.ok ⟨360, 100, 0⟩ :=
  C4_hsv_parse.1 360 100 0 (by decide) (by decide) (by decide)

theorem colorRGBFromStr_not_three (input : List Char)
    (hlen : (splitOnChar ',' input).length ≠ 3) :
    colorRGBFromStr input = Except.error ParseColorError.mk := by
  simp only [colorRGBFromStr]
  rcases hsp : splitOnChar ',' input with _ | ⟨t1, _ | ⟨t2, _ | ⟨t3, _ | ⟨t4, rest⟩⟩⟩⟩
  · rfl
  · rfl
  · rfl
  · rw [hsp] at hlen; simp at hlen
  · rfl

theorem colorRGBFromStr_token_fail (input t1 t2 t3 : List Char)
    (hsp : splitOnChar ',' input = [t1, t2, t3])
    (hf : parseU8 t1 = none ∨ parseU8 t2 = none ∨ parseU8 t3 = none) :
    colorRGBFromStr input = Except.error ParseColorError.mk := by
  simp only [colorRGBFromStr, hsp]
  show (match parseU8 t1, parseU8 t2, parseU8 t3 with
    | some rv, some gv, some bv => Except.ok (⟨rv, gv, bv⟩ : ColorRGB)
    | _, _, _ => Except.error ParseColorError.mk) = Except.error ParseColorError.mk
  rcases hf with h1 | h2 | h3
  · rw [h1]
  · cases hp1 : parseU8 t1 with
    | none => rfl
    | some rv => rw [h2]
  · cases hp1 : parseU8 t1 with
    | none => rfl
    | some rv =>
      cases hp2 : parseU8 t2 with
      | none => rfl
      | some gv => rw [h3]

/-- C5: RGB parsing succeeds exactly on strings with exactly three
comma-separated fields each parsing as a `u8`: every triple of channels in
[0,255] rendered as `"r,g,b"` parses to exactly those fields; fewer or more
fields, or any field failing the byte parse, yields the opaque
`ParseColorError`, which carries no information about which channel
failed. -/
theorem C5_rgb_parse :
    (∀ rv gv bv : Nat, rv ≤ 255 → gv ≤ 255 → bv ≤ 255 →
      colorRGBFromStr
          (natToChars rv ++ ',' :: (natToChars gv ++ ',' :: natToChars bv)) =
        Except.ok ⟨rv, gv, bv⟩) ∧
    (∀ input c, colorRGBFromStr input = Except.ok c →
      ∃ tr tg tb, splitOnChar ',' input = [tr, tg, tb] ∧
        parseU8 tr = some c.r ∧ parseU8 tg = some c.g ∧
        parseU8 tb = some c.b) ∧
    (∀ input, (splitOnChar ',' input).length ≠ 3 →
      colorRGBFromStr input = Except.error ParseColorError.mk) ∧
    (∀ input t1 t2 t3, splitOnChar ',' input = [t1, t2, t3] →
      parseU8 t1 = none ∨ parseU8 t2 = none ∨ parseU8 t3 = none →
      colorRGBFromStr input = Except.error ParseColorError.mk) ∧
    (∀ input, (¬ ∃ c, colorRGBFromStr input = Except.ok c) →
      colorRGBFromStr input = Except.error ParseColorError.mk) := by
  have hcomma : ∀ n : Nat, ',' ∉ natToChars n := not_mem_natToChars (by decide)
  refine ⟨?_, colorRGBFromStr_ok_inv, colorRGBFromStr_not_three,
    colorRGBFromStr_token_fail, ?_⟩
  · intro rv gv bv hr hg hb
    exact colorRGBFromStr_ok _ (natToChars rv) (natToChars gv) (natToChars bv)
      rv gv bv
      (splitOnChar_triple ',' _ _ _ (hcomma rv) (hcomma gv) (hcomma bv))
      (parseUnsigned_natToChars 255 rv hr)
      (parseUnsigned_natToChars 255 gv hg)
      (parseUnsigned_natToChars 255 bv hb)
  · intro input hnc
    cases hc : colorRGBFromStr input with
    | ok c => exact absurd ⟨c, hc⟩ hnc
    | error e => cases e; rfl

theorem C5_rgb_parse_witness :
    colorRGBFromStr
        (natToChars 255 ++ ',' :: (natToChars 0 ++ ',' :: natToChars 7)) =
      Except.ok ⟨255, 0, 7⟩ :=
  C5_rgb_parse.1 255 0 7 (by decide) (by decide) (by decide)

/-- C6: a color type's `valid_for_format` succeeds iff the format string is
exactly (case-sensitively) that type's own lowercase tag (`"rgb"` for
`ColorRGB`, `"hsv"` for `ColorHSV`); every other format string — including
the other type's valid tag — yields `WrongFormat` carrying the string. -/
theorem C6_color_valid_for_format :
    (∀ (selfFormat : ColorFormat) (format : List Char),
      colorValidForFormat selfFormat format = Except.ok () ↔
        format = selfFormat.asStr) ∧
    (∀ (selfFormat : ColorFormat) (format : List Char),
      format ≠ selfFormat.asStr →
      colorValidForFormat selfFormat format =
        Except.error (ValueError.wrongFormat format)) ∧
    ColorFormat.RGB.asStr = ['r', 'g', 'b'] ∧
    ColorFormat.HSV.asStr = ['h', 's', 'v'] ∧
    colorValidForFormat ColorFormat.RGB ['h', 's', 'v'] =
      Except.error (ValueError.wrongFormat ['h', 's', 'v']) ∧
    colorValidForFormat ColorFormat.HSV ['r', 'g', 'b'] =
      Except.error (ValueError.wrongFormat ['r', 'g', 'b']) := by
  refine ⟨?_, ?_, rfl, rfl, rfl, rfl⟩
  · intro sf format
    constructor
    · intro h
      by_cases he : format = sf.asStr
      · exact he
      · simp only [colorValidForFormat] at h
        rw [if_neg he] at h
        exact Except.noConfusion h
    · intro he
      simp only [colorValidForFormat]
      rw [if_pos he]
  · intro sf format he
    simp only [colorValidForFormat]
    rw [if_neg he]

theorem C6_color_valid_for_format_witness :
    colorValidForFormat ColorFormat.RGB ['r', 'g', 'b'] = Except.ok () ∧
    colorValidForFormat ColorFormat.RGB ['z'] =
      Except.error (ValueError.wrongFormat ['z']) :=
  ⟨(C6_color_valid_for_format.1 ColorFormat.RGB ['r', 'g', 'b']).mpr rfl,
   C6_color_valid_for_format.2.1 ColorFormat.RGB ['z'] (by decide)⟩

theorem splitOnChar_joinWithChar (sep : Char) (parts : List (List Char))
    (hne : parts ≠ []) (hsep : ∀ p ∈ parts, sep ∉ p) :
    splitOnChar sep (joinWithChar sep parts) = parts := by
  induction parts with
  | nil => cases hne rfl
  | cons p ps ih =>
    cases ps with
    | nil =>
      show splitOnChar sep p = [p]
      exact splitOnChar_of_not_mem sep p (hsep p (List.mem_cons_self p []))
    | cons q qs =>
      show splitOnChar sep (p ++ sep :: joinWithChar sep (q :: qs)) = _
      rw [splitOnChar_append sep p _ (hsep p (List.mem_cons_self p (q :: qs)))]
      rw [ih (by simp) (fun r hr => hsep r (List.mem_cons_of_mem p hr))]

/-- C7: enum text parsing fails exactly on the empty string, and every
non-empty string parses to a value that serializes back to itself
unchanged; enum format parsing rejects the empty format string with
`WrongFormat` and otherwise returns the comma-split fields in order with no
trimming and no deduplication, empty segments preserved — e.g. `"a,b,c"`
yields `["a","b","c"]` and `"a,,c"` yields `["a","","c"]`. -/
theorem C7_enum_parse_and_format :
    enumValueFromStr [] = some (Except.error ParseEnumError.mk) ∧
    (∀ s : List Char, s ≠ [] →
      enumValueFromStr s = some (Except.ok ⟨s⟩) ∧ enumToChars ⟨s⟩ = s) ∧
    enumParseFormat [] = Except.error (ValueError.wrongFormat []) ∧
    (∀ f : List Char, f ≠ [] →
      enumParseFormat f = Except.ok (splitOnChar ',' f)) ∧
    (∀ parts : List (List Char), parts ≠ [] → (∀ p ∈ parts, ',' ∉ p) →
      joinWithChar ',' parts ≠ [] →
      enumParseFormat (joinWithChar ',' parts) = Except.ok parts) ∧
    enumParseFormat ['a', ',', 'b', ',', 'c'] =
      Except.ok [['a'], ['b'], ['c']] ∧
    enumParseFormat ['a', ',', ',', 'c'] = Except.ok [['a'], [], ['c']] := by
  refine ⟨rfl, ?_, rfl, ?_, ?_, rfl, rfl⟩
  · intro s hs
    refine ⟨?_, rfl⟩
    simp only [enumValueFromStr, EnumValue.new, if_neg hs]
    rfl
  · intro f hf
    simp only [enumParseFormat, if_neg hf]
  · intro parts hne hsep hj
    simp only [enumParseFormat, if_neg hj,
      splitOnChar_joinWithChar ',' parts hne hsep]

theorem C7_enum_parse_and_format_witness :
    enumValueFromStr ['o', 'n'] = some (Except.ok ⟨['o', 'n']⟩) ∧
    enumToChars ⟨['o', 'n']⟩ = ['o', 'n'] ∧
    enumParseFormat ['x', ',', 'y'] = Except.ok [['x'], ['y']] :=
  ⟨(C7_enum_parse_and_format.2.1 ['o', 'n'] (by decide)).1,
   (C7_enum_parse_and_format.2.1 ['o', 'n'] (by decide)).2,
   C7_enum_parse_and_format.2.2.2.1 ['x', ',', 'y'] (by decide)⟩

/-- C8: parse ∘ serialize = Ok on every value constructible through the
public API: every in-range `i64`, both booleans, every string, every
`ColorRGB` with channels in [0,255], every `ColorHSV` with h ≤ 360,
s ≤ 100, v ≤ 100, and every `EnumValue` wrapping a non-empty string
(`f64`'s float literal grammar lies outside the integer embedding). -/
theorem C8_roundtrip :
    (∀ x : Int, -(2 ^ 63) ≤ x → x ≤ 2 ^ 63 - 1 →
      parseI64 (intToChars x) = some x) ∧
    (∀ b : Bool, boolFromStr (boolToChars b) = some b) ∧
    (∀ s : List Char, stringFromStr s = s) ∧
    (∀ c : ColorRGB, c.r ≤ 255 → c.g ≤ 255 → c.b ≤ 255 →
      colorRGBFromStr (colorRGBToChars c) = Except.ok c) ∧
    (∀ c : ColorHSV, c.h ≤ 360 → c.s ≤ 100 → c.v ≤ 100 →
      colorHSVFromStr (colorHSVToChars c) = Except.ok c) ∧
    (∀ v : EnumValue, v.val ≠ [] →
      enumValueFromStr (enumToChars v) = some (Except.ok v)) := by
  have hcomma : ∀ n : Nat, ',' ∉ natToChars n := not_mem_natToChars (by decide)
  refine ⟨parseI64_intToChars, ?_, fun _ => rfl, ?_, ?_, ?_⟩
  · intro b; cases b <;> rfl
  · intro c hr hg hb
    cases c with
    | mk r g b =>
      replace hr : r ≤ 255 := hr
      replace hg : g ≤ 255 := hg
      replace hb : b ≤ 255 := hb
      exact colorRGBFromStr_ok _ _ _ _ r g b
        (splitOnChar_triple ',' _ _ _ (hcomma r) (hcomma g) (hcomma b))
        (parseUnsigned_natToChars 255 r hr)
        (parseUnsigned_natToChars 255 g hg)
        (parseUnsigned_natToChars 255 b hb)
  · intro c hh hs hv
    cases c with
    | mk hn sn vn =>
      replace hh : hn ≤ 360 := hh
      replace hs : sn ≤ 100 := hs
      replace hv : vn ≤ 100 := hv
      exact colorHSVFromStr_ok _ _ _ _ hn sn vn
        (splitOnChar_triple ',' _ _ _ (hcomma hn) (hcomma sn) (hcomma vn))
        (parseUnsigned_natToChars 65535 hn (by omega))
        (parseUnsigned_natToChars 255 sn (by omega))
        (parseUnsigned_natToChars 255 vn (by omega))
        ⟨hh, hs, hv⟩
  · intro v hv
    cases v with
    | mk s =>
      show enumValueFromStr s = some (Except.ok ⟨s⟩)
      replace hv : s ≠ [] := hv
      simp only [enumValueFromStr, EnumValue.new, if_neg hv]
      rfl

theorem C8_roundtrip_witness :
    parseI64 (intToChars (-42)) = some (-42) ∧
    boolFromStr (boolToChars true) = some true ∧
    colorRGBFromStr (colorRGBToChars ⟨1, 2, 3⟩) = Except.ok ⟨1, 2, 3⟩ ∧
    colorHSVFromStr (colorHSVToChars ⟨360, 0, 100⟩) = Except.ok ⟨360, 0, 100⟩ ∧
    enumValueFromStr (enumToChars ⟨['u', 'p']⟩) =
      some (Except.ok ⟨['u', 'p']⟩) :=
  ⟨C8_roundtrip.1 (-42) (by decide) (by decide),
   C8_roundtrip.2.1 true,
   C8_roundtrip.2.2.2.1 ⟨1, 2, 3⟩ (by decide) (by decide) (by decide),
   C8_roundtrip.2.2.2.2.1 ⟨360, 0, 100⟩ (by decide) (by decide) (by decide),
   C8_roundtrip.2.2.2.2.2 ⟨['u', 'p']⟩ (by decide)⟩

/-- C9: trusted construction enforces the invariants fatally:
`ColorHSV::new` panics exactly when `h > 360 ∨ s > 100 ∨ v > 100` and
otherwise returns exactly the given fields; `EnumValue::new` panics exactly
on the empty string and otherwise wraps it; the corresponding parse paths
report the same violations as recoverable errors instead of aborting. -/
theorem C9_constructor_asserts :
    (∀ hn sn vn : Nat, ColorHSV.new hn sn vn = none ↔
      360 < hn ∨ 100 < sn ∨ 100 < vn) ∧
    (∀ hn sn vn : Nat, hn ≤ 360 → sn ≤ 100 → vn ≤ 100 →
      ColorHSV.new hn sn vn = some ⟨hn, sn, vn⟩) ∧
    (∀ s : List Char, EnumValue.new s = none ↔ s = []) ∧
    (∀ s : List Char, s ≠ [] → EnumValue.new s = some ⟨s⟩) ∧
    colorHSVFromStr ['4', '0', '0', ',', '0', ',', '0'] =
      Except.error ParseColorError.mk ∧
    enumValueFromStr [] = some (Except.error ParseEnumError.mk) := by
  refine ⟨?_, ?_, ?_, ?_, rfl, rfl⟩
  · intro hn sn vn
    simp only [ColorHSV.new]
    split_ifs with h1 h2 h3 <;> simp <;> omega
  · intro hn sn vn h1 h2 h3
    simp [ColorHSV.new, h1, h2, h3]
  · intro s
    simp only [EnumValue.new]
    split_ifs with h <;> simp [h]
  · intro s h
    simp [EnumValue.new, h]

theorem C9_constructor_asserts_witness :
    ColorHSV.new 400 0 0 = none ∧
    ColorHSV.new 12 34 56 = some ⟨12, 34, 56⟩ ∧
    EnumValue.new [] = none ∧
    EnumValue.new ['a'] = some ⟨['a']⟩ :=
  ⟨(C9_constructor_asserts.1 400 0 0).mpr (by omega),
   C9_constructor_asserts.2.1 12 34 56 (by decide) (by decide) (by decide),
   (C9_constructor_asserts.2.2.1 []).mpr rfl,
   C9_constructor_asserts.2.2.2.1 ['a'] (by decide)⟩

/-- C10: the untrusted parse paths never abort: `EnumValue`'s `from_str`
returns a `Result` on every input (the constructor's assertion sits behind
the emptiness check), any enum value it produces satisfies the
constructor's precondition, and `ColorHSV`'s `from_str` builds the struct
directly only after its own bounds check, which implies the constructor's
precondition — so the assertions are unreachable from parsing. -/
theorem C10_parse_never_panics :
    (∀ s : List Char, (enumValueFromStr s).isSome = true) ∧
    (∀ (s : List Char) (e : Except ParseEnumError EnumValue),
      enumValueFromStr s = some e →
      ∀ v, e = Except.ok v → EnumValue.new v.val = some v) ∧
    (∀ input c, colorHSVFromStr input = Except.ok c →
      ColorHSV.new c.h c.s c.v = some c) := by
  refine ⟨?_, ?_, ?_⟩
  · intro s
    by_cases h : s = []
    · simp [enumValueFromStr, h]
    · simp [enumValueFromStr, h, EnumValue.new]
  · intro s e he v hv
    by_cases h : s = []
    · rw [h] at he
      replace he : some (Except.error ParseEnumError.mk) = some e := he
      cases he
      exact Except.noConfusion hv
    · simp only [enumValueFromStr, if_neg h, EnumValue.new] at he
      replace he : some (Except.ok (⟨s⟩ : EnumValue)) = some e := he
      cases he
      cases hv
      show EnumValue.new s = some ⟨s⟩
      simp only [EnumValue.new]
      rw [if_neg h]
  · intro input c h
    rcases colorHSVFromStr_ok_inv input c h with
      ⟨_, _, _, _, _, _, _, hb1, hb2, hb3⟩
    simp [ColorHSV.new, hb1, hb2, hb3]

theorem C10_parse_never_panics_witness :
    (enumValueFromStr ['x']).isSome = true ∧
    ColorHSV.new 1 2 3 = some ⟨1, 2, 3⟩ :=
  ⟨C10_parse_never_panics.1 ['x'],
   C10_parse_never_panics.2.2 ['1', ',', '2', ',', '3'] ⟨1, 2, 3⟩ rfl⟩

theorem C3_amended_valid_for_format_witness :
    i64ValidForFormat ['9', '9'] = Except.ok () ∧
    f64ValidForFormat [':'] = Except.ok () :=
  ⟨C3_amended_valid_for_format.2.2.1 ['9', '9'],
   C3_amended_valid_for_format.2.2.2.1 [':']⟩
